import Mathlib

/-!
Verification of the blobcopy mirror engine (`main.go`).

Shallow embedding conventions:
- Go byte slices and strings are `List Nat` with each element `< 256`
  (Go strings are raw byte sequences; `string(b)` / `[]byte(s)` are
  byte-level identities, so one type models both).
- Fallible Go functions return `Except Unit` or the three-valued `GoRes`
  (`ok` / `error` / `panic`); `panic` models a Go runtime panic
  (slice-bounds violation, nil-pointer dereference), which crashes the
  process.
- The external library primitives (`crypto/md5`, `crypto/aes` +
  `cipher.NewGCM`, `encoding/base64`) are not repository code.  They are
  modelled by executable functions that are faithful to the contracts the
  repository relies on: `md5Sum` is a deterministic 16-byte digest of its
  input; the GCM model `gcmSeal`/`gcmOpen` is a deterministic AEAD with a
  12-byte nonce and a 16-byte authentication tag appended to the
  ciphertext, where `gcmOpen` inverts `gcmSeal` for the same key and nonce
  and rejects any ciphertext whose recomputed tag mismatches (and any
  input shorter than the tag); `base64UrlEncode`/`base64UrlDecode` are
  the real padded base64url alphabet and coding.  The internal mixing
  functions of the digest/keystream models are toy (the claims do not
  depend on them), the input/output structure is not.
- The `gocloud.dev/blob` bucket capability is modelled as an association
  list of objects plus per-key fault switches, so storage failures can be
  injected where a claim is about error handling.
-/

set_option maxRecDepth 100000

namespace Blobcopy

/-- Go byte slices and strings: lists of byte values. -/
abbrev Bytes := List Nat

/-- All elements are genuine byte values (`< 256`). -/
def bytesOk (bs : Bytes) : Prop := ∀ b ∈ bs, b < 256

instance : DecidablePred bytesOk := fun bs =>
  inferInstanceAs (Decidable (∀ b ∈ bs, b < 256))

/-! ## Model of `crypto/md5` (external library)

`md5.Sum` is used by the repository only as a deterministic function from
a byte string to a 16-byte digest.  `md5Absorb` is a toy mixing fold; the
16-byte output shape and determinism are the faithful part. -/

/-- One mixing step of the digest model. -/
def md5Mix (acc b : Nat) : Nat := (acc * 131 + b + 7) % 2 ^ 32

/-- Fold the whole input into a 32-bit accumulator. -/
def md5Absorb (data : Bytes) : Nat := data.foldl md5Mix 5381

/-- Model of `md5.Sum`: a deterministic 16-byte digest of the input. -/
def md5Sum (data : Bytes) : Bytes :=
  (List.range 16).map (fun i => (md5Absorb data / 2 ^ (2 * i) + i * 59) % 256)

/-! ## Model of AES-256-GCM (`crypto/aes` + `cipher.NewGCM`, external library)

The repository uses the AEAD through `gcm.Seal(nonce, nonce, text, nil)`
and `gcm.Open(nil, nonce, ct, nil)` with `gcm.NonceSize() = 12` and a
16-byte tag.  The model is a deterministic stream cipher keyed by
`(key, nonce)` with a recomputable tag over the ciphertext: `gcmOpen`
returns the plaintext exactly when the tag matches, and fails on any
tampered or too-short input, which is the contract the code relies on. -/

/-- `gcm.NonceSize()` for the standard GCM construction. -/
def NonceSize : Nat := 12

/-- GCM authentication tag size (`gcm.Overhead()`). -/
def TagSize : Nat := 16

/-- `aes.NewCipher` accepts exactly 16-, 24- or 32-byte keys. -/
def aesKeyLenOk (key : Bytes) : Bool :=
  key.length == 16 || key.length == 24 || key.length == 32

/-- Seed of the keystream model, mixing key and nonce. -/
def streamSeed (key nonce : Bytes) : Nat := md5Absorb (key ++ nonce)

/-- Keystream of `n` bytes derived from `(key, nonce)`. -/
def keystream (key nonce : Bytes) (n : Nat) : Bytes :=
  (List.range n).map (fun i => (streamSeed key nonce * (i + 3) + i * i) % 256)

/-- Byte-wise XOR of two byte strings (length of the shorter). -/
def xorBytes (a b : Bytes) : Bytes := List.zipWith (· ^^^ ·) a b

/-- Authentication tag of the GCM model, recomputable from key, nonce and
ciphertext. -/
def gcmTag (key nonce ct : Bytes) : Bytes :=
  (List.range TagSize).map
    (fun i => (md5Absorb (key ++ nonce ++ ct) / 2 ^ i + 2 * i + 1) % 256)

/-- Model of `gcm.Seal(nil, nonce, pt, nil)`: stream-encrypted plaintext
followed by the 16-byte tag over the ciphertext. -/
def gcmSeal (key nonce pt : Bytes) : Bytes :=
  let ct := xorBytes pt (keystream key nonce pt.length)
  ct ++ gcmTag key nonce ct

/-- Model of `gcm.Open(nil, nonce, ct, nil)`: recompute and check the tag,
then invert the stream; `none` models the authentication error (also
returned for inputs shorter than the tag, as in the library). -/
def gcmOpen (key nonce ct : Bytes) : Option Bytes :=
  if ct.length < TagSize then none
  else
    let body := ct.take (ct.length - TagSize)
    let tag := ct.drop (ct.length - TagSize)
    if gcmTag key nonce body = tag then
      some (xorBytes body (keystream key nonce body.length))
    else none

/-! ## Three-valued Go results

`ok` is a normal return, `error` a returned `error` value, `panic` a Go
runtime panic (the process crashes).  The error payloads of the crypto
layer are not inspected by the repository, so `error` carries none. -/

/-- Result of a Go call: value, error return, or runtime panic. -/
inductive GoRes (α : Type) where
  | ok (a : α)
  | error
  | panic
deriving Repr, DecidableEq

/-- True exactly for `ok` results. -/
def GoRes.isOk {α : Type} : GoRes α → Bool
  | .ok _ => true
  | _ => false

/-! ## `encrypt` / `decrypt` (`main.go:258-292`) -/

/-- Embedding of `encrypt` (`main.go:258`): empty key passes the text
through; otherwise the nonce is the first `NonceSize` bytes of
`MD5(text)` and the output is `gcm.Seal(nonce, nonce, text, nil)`, i.e.
the nonce prepended verbatim to the sealed message.  `aes.NewCipher`
rejects keys that are not 16/24/32 bytes. -/
def encrypt (text key : Bytes) : Except Unit Bytes :=
  if key.length = 0 then .ok text
  else if aesKeyLenOk key then
    let nonce := (md5Sum text).take NonceSize
    .ok (nonce ++ gcmSeal key nonce text)
  else .error ()

/-- Embedding of `decrypt` (`main.go:277`): empty key passes through;
otherwise the code slices `cyphertext[:nonceSize]` / `cyphertext[nonceSize:]`
with no length guard — when the input is shorter than the nonce the
second slice has its low bound above the length and Go panics with a
slice-bounds violation.  Otherwise `gcm.Open` authenticates and decrypts. -/
def decrypt (cyphertext key : Bytes) : GoRes Bytes :=
  if key.length = 0 then .ok cyphertext
  else if aesKeyLenOk key then
    if cyphertext.length < NonceSize then .panic
    else
      match gcmOpen key (cyphertext.take NonceSize) (cyphertext.drop NonceSize) with
      | some pt => .ok pt
      | none => .error
  else .error

/-! ## Model of `encoding/base64` URL encoding (external library)

`base64.URLEncoding` is the padded base64url coding: the URL-safe
alphabet `A-Z a-z 0-9 - _`, 3 input bytes per 4 output characters, and
`'='` (ASCII 61) padding closing the final group. -/

/-- ASCII code of position `n` of the base64url alphabet. -/
def b64Char (n : Nat) : Nat :=
  if n < 26 then 65 + n
  else if n < 52 then 97 + (n - 26)
  else if n < 62 then 48 + (n - 52)
  else if n = 62 then 45
  else 95

/-- Alphabet position of an ASCII code, `none` outside the alphabet
(the padding character 61 included). -/
def b64Val (c : Nat) : Option Nat :=
  if 65 ≤ c ∧ c ≤ 90 then some (c - 65)
  else if 97 ≤ c ∧ c ≤ 122 then some (c - 97 + 26)
  else if 48 ≤ c ∧ c ≤ 57 then some (c - 48 + 52)
  else if c = 45 then some 62
  else if c = 95 then some 63
  else none

/-- Model of `base64.URLEncoding.EncodeToString`. -/
def base64UrlEncode : Bytes → Bytes
  | [] => []
  | [b0] => [b64Char (b0 / 4), b64Char (b0 % 4 * 16), 61, 61]
  | [b0, b1] => [b64Char (b0 / 4), b64Char (b0 % 4 * 16 + b1 / 16), b64Char (b1 % 16 * 4), 61]
  | b0 :: b1 :: b2 :: rest =>
      b64Char (b0 / 4) :: b64Char (b0 % 4 * 16 + b1 / 16)
        :: b64Char (b1 % 16 * 4 + b2 / 64) :: b64Char (b2 % 64)
        :: base64UrlEncode rest

/-- Model of `base64.URLEncoding.DecodeString`: groups of four alphabet
characters, padding allowed only in the final group, error on any other
shape. -/
def base64UrlDecode : Bytes → Except Unit Bytes
  | [] => .ok []
  | c0 :: c1 :: c2 :: c3 :: rest =>
      match b64Val c0, b64Val c1 with
      | some v0, some v1 =>
        if c2 = 61 then
          if c3 = 61 ∧ rest = [] then .ok [v0 * 4 + v1 / 16] else .error ()
        else
          match b64Val c2 with
          | some v2 =>
            if c3 = 61 then
              if rest = [] then .ok [v0 * 4 + v1 / 16, v1 % 16 * 16 + v2 / 4]
              else .error ()
            else
              match b64Val c3 with
              | some v3 =>
                match base64UrlDecode rest with
                | .ok tl =>
                    .ok ((v0 * 4 + v1 / 16) :: (v1 % 16 * 16 + v2 / 4)
                      :: (v2 % 4 * 64 + v3) :: tl)
                | .error e => .error e
              | none => .error ()
          | none => .error ()
      | _, _ => .error ()
  | _ => .error ()

/-! ## `makeKey` (`main.go:294-315`) -/

/-- Embedding of `makeKey`: with a non-empty encryption key, encrypt the
key bytes and base64url-encode; with a non-empty decryption key,
base64url-decode and decrypt.  Either step's failure aborts; the decrypt
step can panic (short decoded input). -/
def makeKey (oldKey bytesEncrypt bytesDecrypt : Bytes) : GoRes Bytes :=
  let step1 : Except Unit Bytes :=
    if bytesEncrypt.length ≠ 0 then
      match encrypt oldKey bytesEncrypt with
      | .ok encryptedKey => .ok (base64UrlEncode encryptedKey)
      | .error _ => .error ()
    else .ok oldKey
  match step1 with
  | .error _ => .error
  | .ok newKey =>
    if bytesDecrypt.length ≠ 0 then
      match base64UrlDecode newKey with
      | .error _ => .error
      | .ok decodedKey => decrypt decodedKey bytesDecrypt
    else .ok newKey

/-! ## Model of the `gocloud.dev/blob` bucket capability (external)

A bucket is an association list of objects (key, content, recorded MD5
attribute — `[]` models an absent content hash) plus per-key fault
switches used to inject the storage failures the error-handling claims
are about.  `computesMD5` distinguishes backends that record a content
hash on write (`mem://`, the staging store's purpose) from ones that do
not.  Object sizes appear in the Go code only inside log lines, so they
are not modelled; the nil-pointer dereference hazard of the ignored
attribute re-fetch is modelled through an `Option ObjData`. -/

/-- One stored object: content plus the recorded MD5 attribute. -/
structure ObjData where
  content : Bytes
  md5 : Bytes
deriving Repr, DecidableEq

/-- Association-list lookup by key. -/
def findObj : List (Bytes × ObjData) → Bytes → Option ObjData
  | [], _ => none
  | p :: ps, k => if p.1 = k then some p.2 else findObj ps k

/-- Create or overwrite one object. -/
def setObj : List (Bytes × ObjData) → Bytes → ObjData → List (Bytes × ObjData)
  | [], k, o => [(k, o)]
  | p :: ps, k, o => if p.1 = k then (k, o) :: ps else p :: setObj ps k o

/-- Remove one object. -/
def removeObj : List (Bytes × ObjData) → Bytes → List (Bytes × ObjData)
  | [], _ => []
  | p :: ps, k => if p.1 = k then ps else p :: removeObj ps k

/-- Bucket state plus injectable per-operation faults. -/
structure Bucket where
  objs : List (Bytes × ObjData)
  computesMD5 : Bool
  attrFail : Bytes → Bool
  existsFail : Bytes → Bool
  readFail : Bytes → Bool
  writeFail : Bytes → Bool
  deleteFail : Bytes → Bool

/-- A fault-free bucket over the given objects. -/
def mkBucket (objs : List (Bytes × ObjData)) (computesMD5 : Bool) : Bucket :=
  ⟨objs, computesMD5, fun _ => false, fun _ => false, fun _ => false,
    fun _ => false, fun _ => false⟩

/-- `Bucket.Attributes`: fails when the key is absent or on an injected
fault. -/
def Bucket.attributes (b : Bucket) (k : Bytes) : Except Unit ObjData :=
  if b.attrFail k then .error ()
  else match findObj b.objs k with
    | some o => .ok o
    | none => .error ()

/-- `Bucket.Exists`: key presence, or an injected I/O error. -/
def Bucket.keyExists (b : Bucket) (k : Bytes) : Except Unit Bool :=
  if b.existsFail k then .error () else .ok (findObj b.objs k).isSome

/-- Result of `NewReader` + `ReadAll`, keeping NotFound apart from other
I/O errors (the safety check distinguishes them via `gcerrors.Code`). -/
inductive ReadRes where
  | ok (content : Bytes)
  | notFound
  | ioErr
deriving Repr, DecidableEq

/-- `Bucket.NewReader` followed by `io.ReadAll`. -/
def Bucket.read (b : Bucket) (k : Bytes) : ReadRes :=
  if b.readFail k then .ioErr
  else match findObj b.objs k with
    | some o => .ok o.content
    | none => .notFound

/-- `Bucket.NewWriter` + `Write` + `Close`: creates or overwrites; the
recorded MD5 attribute is the content digest when the backend computes
one, absent otherwise. -/
def Bucket.write (b : Bucket) (k content : Bytes) : Except Unit Bucket :=
  if b.writeFail k then .error ()
  else
    let o : ObjData := ⟨content, if b.computesMD5 then md5Sum content else []⟩
    .ok { b with objs := setObj b.objs k o }

/-- `Bucket.Delete`: fails when the key is absent (as `memblob` does) or
on an injected fault. -/
def Bucket.delete (b : Bucket) (k : Bytes) : Except Unit Bucket :=
  if b.deleteFail k then .error ()
  else match findObj b.objs k with
    | some _ => .ok { b with objs := removeObj b.objs k }
    | none => .error ()

/-! ## `copyObj` (`main.go:219-256`) -/

/-- Embedding of `copyObj`: transform the key, read all source bytes,
encrypt then decrypt the content, write to the destination under the new
key.  Returns the written byte count, the new key, and the updated
destination. -/
def copyObj (src dst : Bucket) (key bytesEncrypt bytesDecrypt : Bytes) :
    GoRes (Nat × Bytes × Bucket) :=
  match makeKey key bytesEncrypt bytesDecrypt with
  | .panic => .panic
  | .error => .error
  | .ok newKey =>
    match src.read key with
    | .notFound => .error
    | .ioErr => .error
    | .ok beforeText =>
      match encrypt beforeText bytesEncrypt with
      | .error _ => .error
      | .ok t1 =>
        match decrypt t1 bytesDecrypt with
        | .panic => .panic
        | .error => .error
        | .ok newText =>
          match dst.write newKey newText with
          | .error _ => .error
          | .ok dst' => .ok (newText.length, newKey, dst')

/-! ## The mirror loop (`main.go:139-216`) and its error channel

Each `errs <- fmt.Errorf(...)` site of the loop is one `Ev` constructor,
carrying exactly the object key the Go error message embeds (the
iteration error embeds none).  `Act` is instrumentation recording the
outcome of every loop event, used to state the counting claims; the
`errs` list of the state is appended to exactly where the code sends. -/

/-- One error sent on the `errs` channel. -/
inductive Ev where
  | iterEv
  | attrEv (key : Bytes)
  | stageEv (key : Bytes)
  | cleanupEv (key : Bytes)
  | existsEv (key : Bytes)
  | destAttrEv (key : Bytes)
  | destEv (key : Bytes)
deriving Repr, DecidableEq

/-- The object key wrapped into the error message, if any. -/
def Ev.key : Ev → Option Bytes
  | .iterEv => none
  | .attrEv k => some k
  | .stageEv k => some k
  | .cleanupEv k => some k
  | .existsEv k => some k
  | .destAttrEv k => some k
  | .destEv k => some k

/-- Outcome of one loop event. -/
inductive Act where
  | iterFailed
  | skippedOrdinal (key : Bytes)
  | attrFailed (key : Bytes)
  | stageFailed (key : Bytes)
  | cleanupFailed (key : Bytes)
  | existsFailed (key : Bytes)
  | destAttrFailed (key : Bytes)
  | destFailed (key : Bytes)
  | skippedHash (key : Bytes)
  | copied (key destKey : Bytes)
deriving Repr, DecidableEq

/-- The error event a failure outcome forwards, `none` for non-failures. -/
def Act.toEv : Act → Option Ev
  | .iterFailed => some .iterEv
  | .attrFailed k => some (.attrEv k)
  | .stageFailed k => some (.stageEv k)
  | .cleanupFailed k => some (.cleanupEv k)
  | .existsFailed k => some (.existsEv k)
  | .destAttrFailed k => some (.destAttrEv k)
  | .destFailed k => some (.destEv k)
  | .skippedOrdinal _ => none
  | .skippedHash _ => none
  | .copied _ _ => none

/-- True for outcomes that are failures. -/
def Act.isFailure (a : Act) : Bool := a.toEv.isSome

/-- True for full-copy outcomes. -/
def Act.isCopied : Act → Bool
  | .copied _ _ => true
  | _ => false

/-- Mutable state of one mirror run: the staging and destination buckets,
the pending `cleanloop` closure (original key, staged key), the loop
ordinal, the copy counter, the errors sent so far, and the outcome
trace. -/
structure MState where
  tmp : Option Bucket
  dest : Bucket
  cleanup : Option (Bytes × Bytes)
  loopN : Nat
  addedN : Nat
  errs : List Ev
  acts : List Act

/-- Model of `errs <- ...`: one error handed to the collector. -/
def MState.sendErr (st : MState) (e : Ev) : MState :=
  { st with errs := st.errs ++ [e] }

/-- Record one outcome in the trace. -/
def MState.note (st : MState) (a : Act) : MState :=
  { st with acts := st.acts ++ [a] }

/-- The `cleanloop()` call at the top of each iteration: delete the
staged object recorded by the closure, if any.  The closure is not reset
after running, exactly as in the code. -/
def runCleanup (st : MState) : MState :=
  match st.cleanup, st.tmp with
  | some (origKey, newKey), some t =>
    match t.delete newKey with
    | .error _ => (st.sendErr (.cleanupEv origKey)).note (.cleanupFailed origKey)
    | .ok t' => { st with tmp := some t' }
  | _, _ => st

/-- Destination existence check, hash comparison and full copy
(`main.go:189-213`).  `objKey` is the possibly staged key, `origKey` the
listed key used in error messages; `sattrsOpt` is `none` when the ignored
staging attribute re-fetch failed and the Go `sattrs` pointer is nil, in
which case the later `sattrs.MD5` / `sattrs.Size` dereference panics. -/
def comparePhase (csbkt : Bucket) (objKey origKey : Bytes)
    (sattrsOpt : Option ObjData) (st : MState) : GoRes MState :=
  match st.dest.keyExists objKey with
  | .error _ => .ok ((st.sendErr (.existsEv origKey)).note (.existsFailed origKey))
  | .ok ex =>
    if ex then
      match st.dest.attributes objKey with
      | .error _ =>
          .ok ((st.sendErr (.destAttrEv origKey)).note (.destAttrFailed origKey))
      | .ok dattrs =>
        match sattrsOpt with
        | none => .panic
        | some sattrs =>
          if sattrs.md5 = dattrs.md5 then .ok (st.note (.skippedHash origKey))
          else
            match copyObj csbkt st.dest objKey [] [] with
            | .panic => .panic
            | .error => .ok ((st.sendErr (.destEv origKey)).note (.destFailed origKey))
            | .ok (_, newKey2, d') =>
              .ok (({ st with dest := d', addedN := st.addedN + 1 }).note
                (.copied origKey newKey2))
    else
      match sattrsOpt with
      | none => .panic
      | some _ =>
        match copyObj csbkt st.dest objKey [] [] with
        | .panic => .panic
        | .error => .ok ((st.sendErr (.destEv origKey)).note (.destFailed origKey))
        | .ok (_, newKey2, d') =>
          .ok (({ st with dest := d', addedN := st.addedN + 1 }).note
            (.copied origKey newKey2))

/-- Per-object processing after the skip check (`main.go:160-213`):
source attribute fetch, optional staging copy (with key transform and
cleanup recording), then `comparePhase`. -/
def processObj (s : Bucket) (enc dec : Bytes) (k : Bytes) (st : MState) :
    GoRes MState :=
  match s.attributes k with
  | .error _ => .ok ((st.sendErr (.attrEv k)).note (.attrFailed k))
  | .ok sattrs0 =>
    match st.tmp with
    | none => comparePhase s k k (some sattrs0) st
    | some t =>
      match copyObj s t k enc dec with
      | .panic => .panic
      | .error => .ok ((st.sendErr (.stageEv k)).note (.stageFailed k))
      | .ok (_, newKey, t') =>
        comparePhase t' newKey k (t'.attributes newKey).toOption
          { st with tmp := some t', cleanup := some (k, newKey) }

/-- One entry handed out by the source listing iterator: an object, or a
transient iteration error (`iter.Next` returned a non-EOF error). -/
inductive ListEntry where
  | iterErr
  | obj (key : Bytes)
deriving Repr, DecidableEq

/-- Top of every loop pass (`main.go:146-147`): run the pending cleanup,
then advance the loop ordinal. -/
def stepState (st : MState) : MState :=
  let st1 := runCleanup st
  { st1 with loopN := st1.loopN + 1 }

/-- The mirror loop (`main.go:145-214`): every pass first runs the
pending cleanup and advances the ordinal, then the iterator; EOF breaks
(the cleanup still ran on that pass), an iteration error is sent and
skipped over, the first `skipN` objects are discarded, the rest go
through `processObj`. -/
def mirrorLoop (s : Bucket) (enc dec : Bytes) (skipN : Nat) :
    List ListEntry → MState → GoRes MState
  | [], st => .ok (runCleanup st)
  | e :: rest, st =>
    match e with
    | .iterErr =>
        mirrorLoop s enc dec skipN rest
          (((stepState st).sendErr .iterEv).note .iterFailed)
    | .obj k =>
      if (stepState st).loopN ≤ skipN then
        mirrorLoop s enc dec skipN rest ((stepState st).note (.skippedOrdinal k))
      else
        match processObj s enc dec k (stepState st) with
        | .panic => .panic
        | .error => .error
        | .ok st3 => mirrorLoop s enc dec skipN rest st3

/-- Fresh run state. -/
def initState (tmp : Option Bucket) (d : Bucket) : MState :=
  ⟨tmp, d, none, 0, 0, [], []⟩

/-- Embedding of `mirror` (`main.go:139`): run the loop over the listing
entries produced by the source iterator and return the final state
(`addedN` is the function's return value, `errs` what was sent on the
error channel). -/
def mirror (s d : Bucket) (tmp : Option Bucket) (enc dec : Bytes)
    (skipN : Nat) (entries : List ListEntry) : GoRes MState :=
  mirrorLoop s enc dec skipN entries (initState tmp d)

/-- The listing a fault-free iterator produces for a bucket. -/
def Bucket.listing (b : Bucket) : List ListEntry :=
  b.objs.map (fun p => .obj p.1)

/-- Model of the error-collector goroutine (`main.go:115-135`): every
sent error is received and counted exactly once before `stop` returns. -/
def collectorCount (sent : List Ev) : Nat := sent.length

/-- Observable summary of a finished run: copy counter, sent errors,
outcome trace, destination contents. -/
def runSummary : GoRes MState → Option (Nat × List Ev × List Act × List (Bytes × ObjData))
  | .ok st => some (st.addedN, st.errs, st.acts, st.dest.objs)
  | _ => none

/-! ## Safety marker (`main.go:358-412`) -/

/-- ASCII bytes of the Go string literal spelled underscore, b, l, o, b,
c, o, p, y, underscore, s, a, f, e, t, y, underscore. -/
def safetyLabel : Bytes :=
  [95, 98, 108, 111, 98, 99, 111, 112, 121, 95, 115, 97, 102, 101, 116, 121, 95]

/-- Embedding of `safetyName` (`main.go:358`): the plaintext marker name
is the label followed by `MD5(encKey)`; the returned second component is
its key-space transform under the encryption key. -/
def safetyName (encKey : Bytes) : GoRes (Bytes × Bytes) :=
  let keyName := safetyLabel ++ md5Sum encKey
  match makeKey keyName encKey [] with
  | .ok encKeyName => .ok (keyName, encKeyName)
  | .error => .error
  | .panic => .panic

/-- The encrypted marker name for a key, extracted from `safetyName`
(`[]` in the error cases, which do not occur for valid keys). -/
def safetyEncName (encKey : Bytes) : Bytes :=
  match safetyName encKey with
  | .ok (_, encKeyName) => encKeyName
  | _ => []

/-- The marker content `safetyCheck` expects and `enableSafetyCheck`
stores: the encryption, under the key, of the encrypted marker name. -/
def expectedMarkerContent (encKey : Bytes) : Bytes :=
  match encrypt (safetyEncName encKey) encKey with
  | .ok c => c
  | .error _ => []

/-- Embedding of `enableSafetyCheck` (`main.go:368`): write, at the
encrypted marker name, the encryption of that same encrypted name. -/
def enableSafetyCheck (bkt : Bucket) (encKey : Bytes) : GoRes Bucket :=
  match safetyName encKey with
  | .error => .error
  | .panic => .panic
  | .ok (_, encKeyName) =>
    match encrypt encKeyName encKey with
    | .error _ => .error
    | .ok encContent =>
      match bkt.write encKeyName encContent with
      | .ok b' => .ok b'
      | .error _ => .error

/-- Embedding of `safetyCheck` (`main.go:389`): recompute the expected
marker content and read the marker; NotFound yields `(false, nil)`, any
other read failure propagates as an error, otherwise the stored bytes
are compared byte-for-byte with the expected content. -/
def safetyCheck (bkt : Bucket) (encKey : Bytes) : GoRes Bool :=
  match safetyName encKey with
  | .error => .error
  | .panic => .panic
  | .ok (_, encKeyName) =>
    match encrypt encKeyName encKey with
    | .error _ => .error
    | .ok expectedContent =>
      match bkt.read encKeyName with
      | .notFound => .ok false
      | .ioErr => .error
      | .ok actualContent => .ok (expectedContent == actualContent)

/-- Enable the marker with key `K`, then run the check with key `Kc`. -/
def enableThenCheck (b : Bucket) (K Kc : Bytes) : GoRes Bool :=
  match enableSafetyCheck b K with
  | .ok b' => safetyCheck b' Kc
  | .error => .error
  | .panic => .panic

/-! ## Counting helpers used by the claims -/

/-- The failure kinds the specification enumerates (iteration,
attribute-fetch, staging-copy, existence-check, destination-copy) — the
staged-object cleanup-deletion failure is not among them. -/
def Act.isListedFailure : Act → Bool
  | .iterFailed => true
  | .attrFailed _ => true
  | .stageFailed _ => true
  | .existsFailed _ => true
  | .destAttrFailed _ => true
  | .destFailed _ => true
  | _ => false

/-- Number of full-copy outcomes in a trace. -/
def copiedCount (acts : List Act) : Nat := acts.countP (fun a => a.isCopied)

/-- Number of failure outcomes in a trace. -/
def failureCount (acts : List Act) : Nat := acts.countP (fun a => a.isFailure)

/-! ## Run invariants: copy counting and error forwarding

`Inv` ties the loop's counters to the outcome trace: `addedN` counts
exactly the `copied` outcomes, and the errors sent on the channel are
exactly the failure outcomes' events, in order. -/

/-- Counter/trace correspondence invariant of the mirror loop. -/
def Inv (st : MState) : Prop :=
  st.addedN = copiedCount st.acts ∧ st.errs = st.acts.filterMap Act.toEv

/-- The object a `Bucket.write` records: content, with a digest attribute
when the backend computes one. -/
def writtenObj (b : Bucket) (content : Bytes) : ObjData :=
  ⟨content, if b.computesMD5 then md5Sum content else []⟩

/-- State after the full-copy write path of one fresh object: the content
written to the destination under the same key, the counter advanced, a
`copied` outcome recorded. -/
def freshStep (st : MState) (k content : Bytes) : MState :=
  let d := { st.dest with objs := setObj st.dest.objs k (writtenObj st.dest content) }
  ({ st with dest := d, addedN := st.addedN + 1 }).note (.copied k k)

/-- Key-transform specification carried through a run: with a staging
store configured every copy lands under `makeKey` of the listed key, and
with none it lands under the listed key unchanged. -/
def keySpec (tmpSome : Bool) (enc dec : Bytes) (st : MState) : Prop :=
  st.tmp.isSome = tmpSome ∧
    ∀ k dk, Act.copied k dk ∈ st.acts →
      (tmpSome = true → makeKey k enc dec = .ok dk) ∧
      (tmpSome = false → dk = k)

/-! ## Safety-check characterizations -/

/-- Valid key lengths for the safety path: no key, or an AES-256 key as
derived from a password (`getAuthentication` always returns 32 bytes). -/
def keyLenOk (K : Bytes) : Prop := K.length = 0 ∨ K.length = 32

instance : DecidablePred keyLenOk := fun K =>
  inferInstanceAs (Decidable (K.length = 0 ∨ K.length = 32))

/-! ## Concrete values used by witnesses and counterexamples -/

/-- A 32-byte key, as `getAuthentication` always produces. -/
def wKey : Bytes := List.replicate 32 7

/-- A second, different 32-byte key. -/
def wKey2 : Bytes := List.replicate 32 9

/-- Extract the bytes of an `ok` result. -/
def goResBytes : GoRes Bytes → Bytes
  | .ok v => v
  | _ => []

/-- The bucket with only a read fault at the marker name of `wKey`. -/
def c7br : Bucket :=
  { objs := [], computesMD5 := false, attrFail := fun _ => false,
    existsFail := fun _ => false, readFail := fun k => k == safetyEncName wKey,
    writeFail := fun _ => false, deleteFail := fun _ => false }

/-- The marker content the claim asserts: the ciphertext, under the same
key, of the plaintext marker name (this definition follows the claim's
words, for comparison against what the code stores). -/
def specClaimedMarkerContent (K : Bytes) : Bytes :=
  match encrypt (safetyLabel ++ md5Sum K) K with
  | .ok c => c
  | .error _ => []

/-- The destination contents `enableSafetyCheck` produces. -/
def enableResultObjs (b : Bucket) (K : Bytes) : Option (List (Bytes × ObjData)) :=
  match enableSafetyCheck b K with
  | .ok b' => some b'.objs
  | _ => none

/-- Two distinct fresh objects. -/
def wObjs : List (Bytes × ObjData) := [([65], ⟨[1, 2], []⟩), ([66], ⟨[3], []⟩)]

/-- The destination key the staged witness run produces. -/
def c5dk : Bytes := goResBytes (makeKey [65] wKey [])

/-- The encrypted content the staged witness run produces. -/
def c5ct : Bytes :=
  match encrypt [1, 2] wKey with
  | .ok v => v
  | .error _ => []

/-- A source whose attribute fetch fails for the first key only. -/
def c6wSrc : Bucket :=
  { objs := [([65], ⟨[1], []⟩), ([66], ⟨[2], []⟩)], computesMD5 := false,
    attrFail := fun k => k == [65], existsFail := fun _ => false,
    readFail := fun _ => false, writeFail := fun _ => false,
    deleteFail := fun _ => false }

/-- A destination holding one object with a recorded hash. -/
def c2st : MState := initState none (mkBucket [([65], ⟨[9, 9], [1, 1]⟩)] false)

/-- A destination holding one object with no recorded hash. -/
def c10st : MState := initState none (mkBucket [([66], ⟨[5, 5], []⟩)] false)

/-! ## Theorems -/

/-- XOR of two natural numbers below 256 is below 256. -/
theorem xor_byte_lt {a b : Nat} (ha : a < 256) (hb : b < 256) : a ^^^ b < 256 := by
  have h : Nat.bitwise bne a b < 2 ^ 8 := Nat.bitwise_lt ha hb
  exact h

theorem md5Sum_length (data : Bytes) : (md5Sum data).length = 16 := by
  simp [md5Sum]

theorem md5Sum_bytesOk (data : Bytes) : bytesOk (md5Sum data) := by
  intro b hb
  simp only [md5Sum, List.mem_map] at hb
  obtain ⟨i, _, rfl⟩ := hb
  exact Nat.mod_lt _ (by norm_num)

theorem keystream_length (key nonce : Bytes) (n : Nat) :
    (keystream key nonce n).length = n := by
  simp [keystream]

theorem keystream_bytesOk (key nonce : Bytes) (n : Nat) :
    bytesOk (keystream key nonce n) := by
  intro b hb
  simp only [keystream, List.mem_map] at hb
  obtain ⟨i, _, rfl⟩ := hb
  exact Nat.mod_lt _ (by norm_num)

theorem xorBytes_length (a b : Bytes) :
    (xorBytes a b).length = min a.length b.length := by
  simp [xorBytes]

/-- XOR with the same second operand twice is the identity. -/
theorem xorBytes_cancel : ∀ (a b : Bytes), a.length ≤ b.length →
    xorBytes (xorBytes a b) b = a := by
  intro a
  induction a with
  | nil => intro b _; cases b <;> rfl
  | cons x xs ih =>
    intro b hlen
    cases b with
    | nil => simp at hlen
    | cons y ys =>
      simp only [xorBytes, List.zipWith_cons_cons, List.length_cons] at hlen ⊢
      refine congrArg₂ _ (Nat.xor_cancel_right y x) (ih ys ?_)
      omega

theorem xorBytes_bytesOk {a b : Bytes} (ha : bytesOk a) (hb : bytesOk b) :
    bytesOk (xorBytes a b) := by
  intro v hv
  simp only [xorBytes] at hv
  rw [List.mem_iff_get] at hv
  obtain ⟨⟨i, hi⟩, rfl⟩ := hv
  rw [List.get_eq_getElem, List.getElem_zipWith]
  have hia : i < a.length := by
    simp only [List.length_zipWith] at hi; omega
  have hib : i < b.length := by
    simp only [List.length_zipWith] at hi; omega
  exact xor_byte_lt (ha _ (a.getElem_mem hia)) (hb _ (b.getElem_mem hib))

/-- Taking exactly the length of the left part of an append. -/
theorem take_append_exact {α : Type} {l₁ l₂ : List α} {n : Nat} (h : l₁.length = n) :
    (l₁ ++ l₂).take n = l₁ := by
  subst h; exact List.take_left l₁ l₂

/-- Dropping exactly the length of the left part of an append. -/
theorem drop_append_exact {α : Type} {l₁ l₂ : List α} {n : Nat} (h : l₁.length = n) :
    (l₁ ++ l₂).drop n = l₂ := by
  subst h; exact List.drop_left l₁ l₂

theorem gcmTag_length (key nonce ct : Bytes) : (gcmTag key nonce ct).length = TagSize := by
  simp [gcmTag]

theorem gcmTag_bytesOk (key nonce ct : Bytes) : bytesOk (gcmTag key nonce ct) := by
  intro b hb
  simp only [gcmTag, List.mem_map] at hb
  obtain ⟨i, _, rfl⟩ := hb
  exact Nat.mod_lt _ (by norm_num)

theorem gcmSeal_length (key nonce pt : Bytes) :
    (gcmSeal key nonce pt).length = pt.length + TagSize := by
  simp [gcmSeal, xorBytes_length, keystream_length, gcmTag_length]

theorem gcmSeal_bytesOk (key nonce : Bytes) {pt : Bytes} (hpt : bytesOk pt) :
    bytesOk (gcmSeal key nonce pt) := by
  intro b hb
  simp only [gcmSeal, List.mem_append] at hb
  rcases hb with hb | hb
  · exact xorBytes_bytesOk hpt (keystream_bytesOk _ _ _) _ hb
  · exact gcmTag_bytesOk _ _ _ _ hb

/-- Opening any ciphertext of the form `body ++ tag(body)` succeeds and
returns the stream-decrypted body. -/
theorem gcmOpen_append_tag (key nonce body : Bytes) :
    gcmOpen key nonce (body ++ gcmTag key nonce body)
      = some (xorBytes body (keystream key nonce body.length)) := by
  unfold gcmOpen
  have hlen : (body ++ gcmTag key nonce body).length = body.length + TagSize := by
    simp [gcmTag_length]
  rw [hlen, if_neg (by omega)]
  have hsub : body.length + TagSize - TagSize = body.length := by omega
  rw [hsub, List.take_left, List.drop_left, if_pos rfl]

/-- The AEAD model round-trips: opening a sealed message with the same key
and nonce recovers the plaintext. -/
theorem gcmOpen_gcmSeal (key nonce pt : Bytes) :
    gcmOpen key nonce (gcmSeal key nonce pt) = some pt := by
  have hct : (xorBytes pt (keystream key nonce pt.length)).length = pt.length := by
    simp [xorBytes_length, keystream_length]
  have h := gcmOpen_append_tag key nonce (xorBytes pt (keystream key nonce pt.length))
  rw [hct] at h
  simp only [gcmSeal]
  rw [h, xorBytes_cancel pt (keystream key nonce pt.length)
    (by rw [keystream_length])]

theorem encrypt_empty_key (text : Bytes) : encrypt text [] = .ok text := rfl

/-- With a valid non-empty key, `encrypt` succeeds and its output is
exactly the MD5-derived nonce followed by the sealed message. -/
theorem encrypt_eq_of_keyOk {key : Bytes} (text : Bytes)
    (hk : aesKeyLenOk key = true) (hne : key.length ≠ 0) :
    encrypt text key =
      .ok ((md5Sum text).take NonceSize
        ++ gcmSeal key ((md5Sum text).take NonceSize) text) := by
  unfold encrypt
  rw [if_neg hne, if_pos hk]

theorem encrypt_bytesOk {key text : Bytes} (htext : bytesOk text) :
    ∀ out, encrypt text key = .ok out → bytesOk out := by
  intro out hout
  unfold encrypt at hout
  split at hout
  · injection hout with h
    subst h
    exact htext
  · split at hout
    · injection hout with h
      subst h
      intro b hb
      rcases List.mem_append.mp hb with hb | hb
      · exact md5Sum_bytesOk text _ (List.mem_of_mem_take hb)
      · exact gcmSeal_bytesOk _ _ htext _ hb
    · cases hout

/-- Length of an `encrypt` output under a valid key: nonce, body, tag. -/
theorem encrypt_length {key : Bytes} (text : Bytes)
    (hk : aesKeyLenOk key = true) (hne : key.length ≠ 0) :
    ∀ out, encrypt text key = .ok out →
      out.length = NonceSize + text.length + TagSize := by
  intro out hout
  rw [encrypt_eq_of_keyOk text hk hne] at hout
  injection hout with h
  subst h
  rw [List.length_append, gcmSeal_length, List.length_take, md5Sum_length]
  unfold NonceSize TagSize
  omega

/-- Claim C3 core: decryption inverts encryption for any 32-byte key. -/
theorem decrypt_encrypt (text key : Bytes) (hk : key.length = 32) :
    ∀ out, encrypt text key = .ok out → decrypt out key = .ok text := by
  intro out hout
  have hkeyOk : aesKeyLenOk key = true := by
    simp [aesKeyLenOk, hk]
  have hne : key.length ≠ 0 := by omega
  rw [encrypt_eq_of_keyOk text hkeyOk hne] at hout
  injection hout with h
  subst h
  have hnlen : ((md5Sum text).take NonceSize).length = NonceSize := by
    rw [List.length_take, md5Sum_length]
    decide
  unfold decrypt
  rw [if_neg hne, if_pos hkeyOk]
  have hlen : (((md5Sum text).take NonceSize)
      ++ gcmSeal key ((md5Sum text).take NonceSize) text).length
      = NonceSize + (text.length + TagSize) := by
    rw [List.length_append, hnlen, gcmSeal_length]
  rw [if_neg (by rw [hlen]; omega)]
  rw [take_append_exact hnlen, drop_append_exact hnlen, gcmOpen_gcmSeal]

theorem b64Val_b64Char : ∀ n < 64, b64Val (b64Char n) = some n := by decide

theorem b64Char_ne_pad : ∀ n < 64, b64Char n ≠ 61 := by decide

/-- The base64url model round-trips on genuine byte strings. -/
theorem base64UrlDecode_encode : ∀ (bs : Bytes), bytesOk bs →
    base64UrlDecode (base64UrlEncode bs) = .ok bs := by
  intro bs
  induction bs using base64UrlEncode.induct with
  | case1 => intro _; rfl
  | case2 b0 =>
    intro hok
    have h0 : b0 < 256 := hok b0 (by simp)
    have e0 := b64Val_b64Char (b0 / 4) (by omega)
    have e1 := b64Val_b64Char (b0 % 4 * 16) (by omega)
    simp only [base64UrlEncode, base64UrlDecode, e0, e1, if_pos rfl,
      if_pos (And.intro rfl rfl)]
    have q0 : b0 / 4 * 4 + b0 % 4 * 16 / 16 = b0 := by omega
    rw [q0]
    simp
  | case3 b0 b1 =>
    intro hok
    have h0 : b0 < 256 := hok b0 (by simp)
    have h1 : b1 < 256 := hok b1 (by simp)
    have e0 := b64Val_b64Char (b0 / 4) (by omega)
    have e1 := b64Val_b64Char (b0 % 4 * 16 + b1 / 16) (by omega)
    have e2 := b64Val_b64Char (b1 % 16 * 4) (by omega)
    have ne2 := b64Char_ne_pad (b1 % 16 * 4) (by omega)
    simp only [base64UrlEncode, base64UrlDecode, e0, e1, e2, if_neg ne2,
      if_pos rfl]
    have q0 : b0 / 4 * 4 + (b0 % 4 * 16 + b1 / 16) / 16 = b0 := by omega
    have q1 : (b0 % 4 * 16 + b1 / 16) % 16 * 16 + b1 % 16 * 4 / 4 = b1 := by omega
    rw [q0, q1]
    simp
  | case4 b0 b1 b2 rest ih =>
    intro hok
    have h0 : b0 < 256 := hok b0 (by simp)
    have h1 : b1 < 256 := hok b1 (by simp)
    have h2 : b2 < 256 := hok b2 (by simp)
    have hrest : bytesOk rest := fun b hb => hok b (by simp [hb])
    have e0 := b64Val_b64Char (b0 / 4) (by omega)
    have e1 := b64Val_b64Char (b0 % 4 * 16 + b1 / 16) (by omega)
    have e2 := b64Val_b64Char (b1 % 16 * 4 + b2 / 64) (by omega)
    have e3 := b64Val_b64Char (b2 % 64) (by omega)
    have ne2 := b64Char_ne_pad (b1 % 16 * 4 + b2 / 64) (by omega)
    have ne3 := b64Char_ne_pad (b2 % 64) (by omega)
    simp only [base64UrlEncode, base64UrlDecode, e0, e1, e2, e3,
      if_neg ne2, if_neg ne3, ih hrest]
    have q0 : b0 / 4 * 4 + (b0 % 4 * 16 + b1 / 16) / 16 = b0 := by omega
    have q1 : (b0 % 4 * 16 + b1 / 16) % 16 * 16 + (b1 % 16 * 4 + b2 / 64) / 4 = b1 := by
      omega
    have q2 : (b1 % 16 * 4 + b2 / 64) % 4 * 64 + b2 % 64 = b2 := by omega
    rw [q0, q1, q2]

theorem makeKey_id (oldKey : Bytes) : makeKey oldKey [] [] = .ok oldKey := rfl

/-- With only an encryption key, `makeKey` is encrypt-then-base64url. -/
theorem makeKey_encrypting {key : Bytes} (oldKey : Bytes) (hne : key.length ≠ 0) :
    makeKey oldKey key [] =
      match encrypt oldKey key with
      | .ok e => .ok (base64UrlEncode e)
      | .error _ => .error := by
  unfold makeKey
  simp only [if_pos hne]
  cases encrypt oldKey key <;> rfl

/-- With only a decryption key, `makeKey` is base64url-decode-then-decrypt. -/
theorem makeKey_decrypting {key : Bytes} (oldKey : Bytes) (hne : key.length ≠ 0) :
    makeKey oldKey [] key =
      match base64UrlDecode oldKey with
      | .ok d => decrypt d key
      | .error _ => .error := by
  unfold makeKey
  simp only [List.length_nil, ne_eq, not_true_eq_false, if_false, ite_false,
    if_pos hne]
  cases base64UrlDecode oldKey <;> rfl

/-- The key-string transform round-trips: decrypting `makeKey` inverts
encrypting `makeKey` under the same 32-byte key. -/
theorem makeKey_roundtrip (k key : Bytes) (hkey : key.length = 32) (hk : bytesOk k) :
    ∀ k', makeKey k key [] = .ok k' → makeKey k' [] key = .ok k := by
  intro k' h
  have hne : key.length ≠ 0 := by omega
  rw [makeKey_encrypting k hne] at h
  cases he : encrypt k key with
  | error e =>
    rw [he] at h
    cases h
  | ok enc =>
    rw [he] at h
    injection h with h
    subst h
    rw [makeKey_decrypting _ hne,
      base64UrlDecode_encode enc (encrypt_bytesOk hk enc he)]
    exact decrypt_encrypt k key hkey enc he

theorem comparePhase_inv {csbkt : Bucket} {objKey origKey : Bytes}
    {sattrsOpt : Option ObjData} {st st' : MState}
    (h : comparePhase csbkt objKey origKey sattrsOpt st = .ok st')
    (hI : Inv st) : Inv st' := by
  obtain ⟨h1, h2⟩ := hI
  unfold comparePhase at h
  repeat' split at h
  all_goals try cases h
  all_goals unfold Inv
  all_goals refine ⟨?_, ?_⟩ <;>
    simp [MState.note, MState.sendErr, copiedCount, List.countP_append,
      Act.isCopied, Act.toEv, h1, h2]

theorem processObj_inv {s : Bucket} {enc dec k : Bytes} {st st' : MState}
    (h : processObj s enc dec k st = .ok st') (hI : Inv st) : Inv st' := by
  obtain ⟨h1, h2⟩ := hI
  unfold processObj at h
  repeat' split at h
  all_goals try exact comparePhase_inv h ⟨h1, h2⟩
  all_goals try cases h
  all_goals unfold Inv
  all_goals refine ⟨?_, ?_⟩ <;>
    simp [MState.note, MState.sendErr, copiedCount, List.countP_append,
      Act.isCopied, Act.toEv, h1, h2]

theorem runCleanup_inv {st : MState} (hI : Inv st) : Inv (runCleanup st) := by
  obtain ⟨h1, h2⟩ := hI
  unfold runCleanup
  repeat' split
  all_goals unfold Inv
  all_goals refine ⟨?_, ?_⟩ <;>
    simp [MState.note, MState.sendErr, copiedCount, List.countP_append,
      Act.isCopied, Act.toEv, h1, h2]

theorem stepState_inv {st : MState} (hI : Inv st) : Inv (stepState st) := by
  have h := runCleanup_inv hI
  obtain ⟨h1, h2⟩ := h
  exact ⟨h1, h2⟩

theorem Inv_sendErr_note {st : MState} (hI : Inv st) {a : Act} {e : Ev}
    (he : a.toEv = some e) (hc : a.isCopied = false) :
    Inv ((st.sendErr e).note a) := by
  obtain ⟨h1, h2⟩ := hI
  refine ⟨?_, ?_⟩ <;>
    simp [MState.note, MState.sendErr, copiedCount, List.countP_append,
      hc, he, h1, h2]

theorem Inv_note {st : MState} (hI : Inv st) {a : Act}
    (he : a.toEv = none) (hc : a.isCopied = false) : Inv (st.note a) := by
  obtain ⟨h1, h2⟩ := hI
  refine ⟨?_, ?_⟩ <;>
    simp [MState.note, copiedCount, List.countP_append, hc, he, h1, h2]

theorem mirrorLoop_inv {s : Bucket} {enc dec : Bytes} {skipN : Nat} :
    ∀ {entries : List ListEntry} {st st' : MState},
      mirrorLoop s enc dec skipN entries st = .ok st' → Inv st → Inv st' := by
  intro entries
  induction entries with
  | nil =>
    intro st st' h hI
    unfold mirrorLoop at h
    injection h with h
    subst h
    exact runCleanup_inv hI
  | cons e rest ih =>
    intro st st' h hI
    have hI2 : Inv (stepState st) := stepState_inv hI
    cases e with
    | iterErr =>
      simp only [mirrorLoop] at h
      exact ih h (Inv_sendErr_note hI2 rfl rfl)
    | obj k =>
      simp only [mirrorLoop] at h
      split at h
      · exact ih h (Inv_note (a := .skippedOrdinal k) hI2 rfl rfl)
      · split at h
        · cases h
        · cases h
        · rename_i st3 hp
          exact ih h (processObj_inv hp hI2)

/-- Every finished mirror run satisfies the counter/trace
correspondence. -/
theorem mirror_inv {s d : Bucket} {tmp : Option Bucket} {enc dec : Bytes}
    {skipN : Nat} {entries : List ListEntry} {st' : MState}
    (h : mirror s d tmp enc dec skipN entries = .ok st') :
    st'.addedN = copiedCount st'.acts ∧ st'.errs = st'.acts.filterMap Act.toEv :=
  mirrorLoop_inv h ⟨rfl, rfl⟩

/-- Length of a `filterMap` as a `countP` of successful hits. -/
theorem length_filterMap_countP {α β : Type} (f : α → Option β) :
    ∀ (l : List α), (l.filterMap f).length = l.countP (fun a => (f a).isSome) := by
  intro l
  induction l with
  | nil => rfl
  | cons x xs ih =>
    rw [List.filterMap_cons, List.countP_cons]
    cases hx : f x <;> simp [hx, ih]

/-! ## Association-list and loop-step lemmas -/

theorem findObj_setObj_self (l : List (Bytes × ObjData)) (k : Bytes) (o : ObjData) :
    findObj (setObj l k o) k = some o := by
  induction l with
  | nil => simp [setObj, findObj]
  | cons p ps ih =>
    by_cases hk : p.1 = k
    · simp [setObj, hk, findObj]
    · simp [setObj, hk, findObj, ih]

theorem findObj_setObj_ne (l : List (Bytes × ObjData)) {k k' : Bytes} (o : ObjData)
    (h : k' ≠ k) : findObj (setObj l k o) k' = findObj l k' := by
  induction l with
  | nil =>
    have hne : ¬ k = k' := fun hc => h hc.symm
    simp [setObj, findObj, hne]
  | cons p ps ih =>
    by_cases hk : p.1 = k
    · subst hk
      have hpk : ¬ p.1 = k' := fun hc => h hc.symm
      simp [setObj, findObj, hpk]
    · by_cases hk' : p.1 = k'
      · simp [setObj, hk, findObj, hk', h]
      · simp [setObj, hk, findObj, hk', h, ih]

theorem findObj_of_mem_nodup :
    ∀ {l : List (Bytes × ObjData)}, (l.map Prod.fst).Nodup →
      ∀ {p : Bytes × ObjData}, p ∈ l → findObj l p.1 = some p.2 := by
  intro l
  induction l with
  | nil => intro _ p hp; cases hp
  | cons q l' ih =>
    intro hn p hp
    rw [List.map_cons, List.nodup_cons] at hn
    rcases List.mem_cons.mp hp with h | h
    · subst h
      simp [findObj]
    · have hne : q.1 ≠ p.1 := by
        intro he
        exact hn.1 (he ▸ List.mem_map_of_mem Prod.fst h)
      simp [findObj, hne, ih hn.2 h]

theorem runCleanup_none {st : MState} (h : st.cleanup = none) :
    runCleanup st = st := by
  unfold runCleanup
  rw [h]

theorem stepState_none {st : MState} (h : st.cleanup = none) :
    stepState st = { st with loopN := st.loopN + 1 } := by
  unfold stepState
  rw [runCleanup_none h]

/-- Processing a fresh object (present in the source, absent in the
destination, no staging, no faults, no keys) performs the full-copy write
path: the object lands in the destination under its own key and the copy
counter increments. -/
theorem processObj_fresh {s : Bucket} {st : MState} {k : Bytes} {o : ObjData}
    (htmp : st.tmp = none)
    (hattr : s.attrFail k = false)
    (hread : s.readFail k = false)
    (hsrc : findObj s.objs k = some o)
    (hex : st.dest.existsFail k = false)
    (hwr : st.dest.writeFail k = false)
    (hdest : findObj st.dest.objs k = none) :
    processObj s [] [] k st = .ok (freshStep st k o.content) := by
  unfold freshStep
  simp only [processObj, comparePhase, copyObj, makeKey, Bucket.attributes,
    Bucket.keyExists, Bucket.read, Bucket.write, encrypt, decrypt, writtenObj,
    hattr, hread, hsrc, hex, hwr, hdest, htmp, List.length_nil,
    if_pos, if_false, ite_false, Option.isSome_none, Bool.false_eq_true,
    MState.note]
  simp [hwr]

/-- Running the loop over fresh, distinct objects with no staging, no
keys, no skip and no faults copies every object and sends no error. -/
theorem mirror_fresh_aux :
    ∀ (rem : List (Bytes × ObjData)) (s : Bucket) (st : MState),
      st.tmp = none →
      st.cleanup = none →
      (∀ k, s.attrFail k = false) →
      (∀ k, s.readFail k = false) →
      (∀ k, st.dest.existsFail k = false) →
      (∀ k, st.dest.writeFail k = false) →
      (∀ p ∈ rem, findObj s.objs p.1 = some p.2) →
      (rem.map Prod.fst).Nodup →
      (∀ p ∈ rem, findObj st.dest.objs p.1 = none) →
      ∃ st', mirrorLoop s [] [] 0 (rem.map (fun p => ListEntry.obj p.1)) st = .ok st'
        ∧ st'.addedN = st.addedN + rem.length ∧ st'.errs = st.errs := by
  intro rem
  induction rem with
  | nil =>
    intro s st _ hclean _ _ _ _ _ _ _
    exact ⟨st, by simp [mirrorLoop, runCleanup_none hclean], rfl, rfl⟩
  | cons p rem' ih =>
    intro s st htmp hclean hattr hread hex hwr hsrc hnodup hdest
    rw [List.map_cons, List.nodup_cons] at hnodup
    have hstep : stepState st = { st with loopN := st.loopN + 1 } :=
      stepState_none hclean
    have hpo := @processObj_fresh s { st with loopN := st.loopN + 1 }
      p.1 p.2 htmp (hattr p.1) (hread p.1) (hsrc p (by simp))
      (hex p.1) (hwr p.1) (hdest p (by simp))
    rw [List.map_cons]
    simp only [mirrorLoop, hstep]
    rw [if_neg (by omega), hpo]
    obtain ⟨st', hrun, hadd, herrs⟩ :=
      ih s (freshStep { st with loopN := st.loopN + 1 } p.1 p.2.content)
        htmp hclean hattr hread hex hwr
        (fun q hq => hsrc q (List.mem_cons_of_mem p hq))
        hnodup.2
        (fun q hq => by
          have hne : q.1 ≠ p.1 := fun he =>
            hnodup.1 (he ▸ List.mem_map_of_mem Prod.fst hq)
          show findObj (setObj st.dest.objs p.1 (writtenObj st.dest p.2.content)) q.1
            = none
          rw [findObj_setObj_ne _ _ hne]
          exact hdest q (List.mem_cons_of_mem p hq))
    refine ⟨st', hrun, ?_, ?_⟩
    · rw [hadd]
      simp only [freshStep, MState.note, List.length_cons]
      omega
    · rw [herrs]
      simp only [freshStep, MState.note]

/-! ## Which destination key a copy lands under -/

/-- A successful `copyObj` wrote under exactly the `makeKey` transform of
its input key. -/
theorem copyObj_key {src dst : Bucket} {key be bd : Bytes} {n : Nat}
    {nk : Bytes} {d' : Bucket}
    (h : copyObj src dst key be bd = .ok (n, nk, d')) :
    makeKey key be bd = .ok nk := by
  unfold copyObj at h
  repeat' split at h
  all_goals try cases h
  all_goals assumption

theorem comparePhase_keySpec {tmpSome : Bool} {enc dec : Bytes} {csbkt : Bucket}
    {objKey origKey : Bytes} {sattrsOpt : Option ObjData} {st st' : MState}
    (h : comparePhase csbkt objKey origKey sattrsOpt st = .ok st')
    (hs : keySpec tmpSome enc dec st)
    (hobj1 : tmpSome = true → makeKey origKey enc dec = .ok objKey)
    (hobj2 : tmpSome = false → objKey = origKey) :
    keySpec tmpSome enc dec st' := by
  obtain ⟨hs1, hs2⟩ := hs
  unfold comparePhase at h
  repeat' split at h
  all_goals try cases h
  all_goals refine ⟨by simpa [MState.note, MState.sendErr] using hs1, ?_⟩
  all_goals intro k dk hmem
  all_goals simp only [MState.note, MState.sendErr, List.mem_append,
    List.mem_singleton] at hmem
  all_goals rcases hmem with hmem | hmem
  all_goals try exact hs2 k dk hmem
  all_goals try cases hmem
  -- remaining: the copied acts
  all_goals rename_i hcopy
  all_goals have hk := copyObj_key hcopy
  all_goals rw [makeKey_id] at hk
  all_goals injection hk with hk
  all_goals subst hk
  all_goals exact ⟨hobj1, hobj2⟩

theorem processObj_keySpec {tmpSome : Bool} {enc dec : Bytes} {s : Bucket}
    {k : Bytes} {st st' : MState}
    (h : processObj s enc dec k st = .ok st')
    (hs : keySpec tmpSome enc dec st) : keySpec tmpSome enc dec st' := by
  obtain ⟨hs1, hs2⟩ := hs
  unfold processObj at h
  repeat' split at h
  all_goals try cases h
  -- attribute-fetch failure: only a non-copy outcome is noted
  · refine ⟨by simpa [MState.note, MState.sendErr] using hs1, ?_⟩
    intro k' dk hmem
    simp only [MState.note, MState.sendErr, List.mem_append,
      List.mem_singleton] at hmem
    rcases hmem with hmem | hmem
    · exact hs2 k' dk hmem
    · cases hmem
  -- no staging store: the compare phase sees the listed key unchanged
  · rename_i heqt
    have hfalse : tmpSome = false := by rw [← hs1, heqt]; rfl
    exact comparePhase_keySpec h ⟨hs1, hs2⟩
      (fun ht => absurd (hfalse.symm.trans ht) (by simp)) (fun _ => rfl)
  -- staging-copy failure: only a non-copy outcome is noted
  · refine ⟨by simpa [MState.note, MState.sendErr] using hs1, ?_⟩
    intro k' dk hmem
    simp only [MState.note, MState.sendErr, List.mem_append,
      List.mem_singleton] at hmem
    rcases hmem with hmem | hmem
    · exact hs2 k' dk hmem
    · cases hmem
  -- staging succeeded: the compare phase sees the makeKey transform
  · rename_i t heqt x f nk d hcopy
    have htrue : tmpSome = true := by rw [← hs1, heqt]; rfl
    have hk := copyObj_key hcopy
    refine comparePhase_keySpec h ⟨?_, hs2⟩ (fun _ => hk)
      (fun hf => absurd (htrue.symm.trans hf) (by simp))
    simp [htrue]

theorem keySpec_sendErr_note {tmpSome : Bool} {enc dec : Bytes} {st : MState}
    (hs : keySpec tmpSome enc dec st) {a : Act} {e : Ev}
    (hnc : a.isCopied = false) : keySpec tmpSome enc dec ((st.sendErr e).note a) := by
  obtain ⟨hs1, hs2⟩ := hs
  refine ⟨by simpa [MState.note, MState.sendErr] using hs1, ?_⟩
  intro k' dk hmem
  simp only [MState.note, MState.sendErr, List.mem_append,
    List.mem_singleton] at hmem
  rcases hmem with hmem | hmem
  · exact hs2 k' dk hmem
  · rw [← hmem] at hnc
    simp [Act.isCopied] at hnc

theorem keySpec_note {tmpSome : Bool} {enc dec : Bytes} {st : MState}
    (hs : keySpec tmpSome enc dec st) {a : Act}
    (hnc : a.isCopied = false) : keySpec tmpSome enc dec (st.note a) := by
  obtain ⟨hs1, hs2⟩ := hs
  refine ⟨by simpa [MState.note] using hs1, ?_⟩
  intro k' dk hmem
  simp only [MState.note, List.mem_append, List.mem_singleton] at hmem
  rcases hmem with hmem | hmem
  · exact hs2 k' dk hmem
  · rw [← hmem] at hnc
    simp [Act.isCopied] at hnc

theorem runCleanup_keySpec {tmpSome : Bool} {enc dec : Bytes} {st : MState}
    (hs : keySpec tmpSome enc dec st) : keySpec tmpSome enc dec (runCleanup st) := by
  obtain ⟨hs1, hs2⟩ := hs
  unfold runCleanup
  repeat' split
  · exact keySpec_sendErr_note ⟨hs1, hs2⟩ rfl
  · rename_i htmp x t' hdel
    refine ⟨?_, hs2⟩
    rw [← hs1, htmp]
    rfl
  · exact ⟨hs1, hs2⟩

theorem stepState_keySpec {tmpSome : Bool} {enc dec : Bytes} {st : MState}
    (hs : keySpec tmpSome enc dec st) : keySpec tmpSome enc dec (stepState st) := by
  have h := runCleanup_keySpec hs
  obtain ⟨h1, h2⟩ := h
  exact ⟨h1, h2⟩

theorem mirrorLoop_keySpec {s : Bucket} {enc dec : Bytes} {skipN : Nat}
    {tmpSome : Bool} :
    ∀ {entries : List ListEntry} {st st' : MState},
      mirrorLoop s enc dec skipN entries st = .ok st' →
      keySpec tmpSome enc dec st → keySpec tmpSome enc dec st' := by
  intro entries
  induction entries with
  | nil =>
    intro st st' h hs
    unfold mirrorLoop at h
    injection h with h
    subst h
    exact runCleanup_keySpec hs
  | cons e rest ih =>
    intro st st' h hs
    have hs2 : keySpec tmpSome enc dec (stepState st) := stepState_keySpec hs
    cases e with
    | iterErr =>
      simp only [mirrorLoop] at h
      exact ih h (keySpec_sendErr_note hs2 rfl)
    | obj k =>
      simp only [mirrorLoop] at h
      split at h
      · exact ih h (keySpec_note (a := .skippedOrdinal k) hs2 rfl)
      · split at h
        · cases h
        · cases h
        · rename_i st3 hp
          exact ih h (processObj_keySpec hp hs2)

theorem safetyName_eq {K : Bytes} (hK : keyLenOk K) :
    safetyName K = .ok (safetyLabel ++ md5Sum K, safetyEncName K) := by
  have h1 : ∃ en, safetyName K = .ok (safetyLabel ++ md5Sum K, en) := by
    cases hK with
    | inl h =>
      have hnil : K = [] := List.length_eq_zero.mp h
      subst hnil
      exact ⟨_, rfl⟩
    | inr h =>
      have hne : K.length ≠ 0 := by omega
      have hok : aesKeyLenOk K = true := by simp [aesKeyLenOk, h]
      simp only [safetyName]
      rw [makeKey_encrypting _ hne, encrypt_eq_of_keyOk _ hok hne]
      exact ⟨_, rfl⟩
  obtain ⟨en, hen⟩ := h1
  unfold safetyEncName
  rw [hen]

theorem makeKey_safetyEncName {K : Bytes} (hK : keyLenOk K) :
    makeKey (safetyLabel ++ md5Sum K) K [] = .ok (safetyEncName K) := by
  have h := safetyName_eq hK
  simp only [safetyName] at h
  split at h
  · rename_i hmk
    injection h with h
    injection h with h1 h2
    rw [hmk, h2]
  · cases h
  · cases h

theorem encrypt_safetyEncName {K : Bytes} (hK : keyLenOk K) :
    encrypt (safetyEncName K) K = .ok (expectedMarkerContent K) := by
  unfold expectedMarkerContent
  cases hK with
  | inl h =>
    have hnil : K = [] := List.length_eq_zero.mp h
    subst hnil
    rfl
  | inr h =>
    have hne : K.length ≠ 0 := by omega
    have hok : aesKeyLenOk K = true := by simp [aesKeyLenOk, h]
    rw [encrypt_eq_of_keyOk _ hok hne]

/-- `enableSafetyCheck` writes the expected marker content at the
encrypted marker name. -/
theorem enableSafetyCheck_eq {K : Bytes} (hK : keyLenOk K) (b : Bucket)
    (hw : b.writeFail (safetyEncName K) = false) :
    enableSafetyCheck b K = .ok { b with
      objs := setObj b.objs (safetyEncName K) (writtenObj b (expectedMarkerContent K)) } := by
  simp only [enableSafetyCheck, safetyName_eq hK, encrypt_safetyEncName hK,
    Bucket.write, hw, writtenObj]
  simp

/-- `safetyCheck` is the marker read followed by a byte comparison. -/
theorem safetyCheck_eq {K : Bytes} (hK : keyLenOk K) (b : Bucket) :
    safetyCheck b K =
      (match b.read (safetyEncName K) with
       | .notFound => .ok false
       | .ioErr => .error
       | .ok c => .ok (expectedMarkerContent K == c)) := by
  simp only [safetyCheck, safetyName_eq hK, encrypt_safetyEncName hK]

/-! ## Claims C3, C4, C9 -/

/-- C3: for every byte content and every non-empty 32-byte key,
`decrypt(encrypt(content, key), key)` returns the content, and the
key-string transform round-trips: the decrypting `makeKey`
(base64url-decode then decrypt) inverts the encrypting `makeKey`
(encrypt then base64url-encode) under the same key.  The matches also
assert that both forward transforms succeed. -/
theorem claim_C3_roundtrip (content k key : Bytes) (hkey : key.length = 32)
    (hk : bytesOk k) :
    (match encrypt content key with
     | .ok out => decrypt out key = .ok content
     | .error _ => False) ∧
    (match makeKey k key [] with
     | .ok k' => makeKey k' [] key = .ok k
     | _ => False) := by
  have hok : aesKeyLenOk key = true := by simp [aesKeyLenOk, hkey]
  have hne : key.length ≠ 0 := by omega
  constructor
  · rw [encrypt_eq_of_keyOk content hok hne]
    exact decrypt_encrypt content key hkey _ (encrypt_eq_of_keyOk content hok hne)
  · rw [makeKey_encrypting k hne, encrypt_eq_of_keyOk k hok hne]
    exact makeKey_roundtrip k key hkey hk _
      (by rw [makeKey_encrypting k hne, encrypt_eq_of_keyOk k hok hne])

theorem claim_C3_roundtrip_witness :
    (wKey.length = 32 ∧ bytesOk [100, 101]) ∧
    ((match encrypt [1, 2, 250] wKey with
      | .ok out => decrypt out wKey = .ok [1, 2, 250]
      | .error _ => False) ∧
     (match makeKey [100, 101] wKey [] with
      | .ok k' => makeKey k' [] wKey = .ok [100, 101]
      | _ => False)) :=
  ⟨⟨by decide, by decide⟩,
    claim_C3_roundtrip [1, 2, 250] [100, 101] wKey (by decide) (by decide)⟩

/-- C4: `encrypt` is a deterministic function of `(plaintext, key)` —
in the embedding it is a pure function whose output is pinned by this
equation: the nonce is the first `NonceSize` bytes of `MD5(plaintext)`
(not drawn from randomness), and the output is exactly that nonce
prepended verbatim to the GCM-sealed message, so two calls with identical
inputs produce byte-identical output. -/
theorem claim_C4_deterministic (text key : Bytes)
    (hk : aesKeyLenOk key = true) (hne : key.length ≠ 0) :
    encrypt text key = .ok ((md5Sum text).take NonceSize
      ++ gcmSeal key ((md5Sum text).take NonceSize) text) :=
  encrypt_eq_of_keyOk text hk hne

theorem claim_C4_deterministic_witness :
    (aesKeyLenOk wKey = true ∧ wKey.length ≠ 0) ∧
    encrypt [5, 6] wKey = .ok ((md5Sum [5, 6]).take NonceSize
      ++ gcmSeal wKey ((md5Sum [5, 6]).take NonceSize) [5, 6]) :=
  ⟨⟨by decide, by decide⟩, claim_C4_deterministic [5, 6] wKey (by decide) (by decide)⟩

/-- C9: contrary to the claim, `decrypt` panics (a Go slice-bounds
violation, crashing the process) on any ciphertext shorter than the
nonce size; for inputs of at least the nonce size it indeed returns an
error value or the plaintext and never panics. -/
theorem claim_C9_decrypt_panic (key : Bytes) (hk : key.length = 32) (ct : Bytes) :
    (ct.length < NonceSize → decrypt ct key = .panic) ∧
    (NonceSize ≤ ct.length → decrypt ct key ≠ .panic) := by
  have hok : aesKeyLenOk key = true := by simp [aesKeyLenOk, hk]
  have hne : key.length ≠ 0 := by omega
  constructor
  · intro hlt
    unfold decrypt
    rw [if_neg hne, if_pos hok, if_pos hlt]
  · intro hge
    unfold decrypt
    rw [if_neg hne, if_pos hok, if_neg (by omega)]
    cases gcmOpen key (ct.take NonceSize) (ct.drop NonceSize) <;> simp

theorem claim_C9_decrypt_panic_witness :
    (wKey.length = 32 ∧ ([] : Bytes).length < NonceSize) ∧
    decrypt [] wKey = .panic :=
  ⟨⟨by decide, by decide⟩, (claim_C9_decrypt_panic wKey (by decide) []).1 (by decide)⟩

/-! ## Claims C7, C8 -/

/-- C7: after enabling the marker with key `K`, the check passes with `K`;
it fails with a different key `Kc` — under the hypothesis, true of any
collision-free cipher, that distinct keys give the marker a different
encrypted name or a different expected content; a bucket with no marker
fails the check with no error; an I/O read failure is propagated as an
error, distinguished from the not-found case. -/
theorem claim_C7_safety (K Kc : Bytes) (b br : Bucket)
    (hK : keyLenOk K) (hKc : keyLenOk Kc)
    (hbobjs : b.objs = [])
    (hw : ∀ k, b.writeFail k = false)
    (hr : ∀ k, b.readFail k = false)
    (hdist : ¬ (safetyEncName Kc = safetyEncName K ∧
      expectedMarkerContent Kc = expectedMarkerContent K))
    (hbrr : br.readFail (safetyEncName K) = true) :
    enableThenCheck b K K = .ok true ∧
    enableThenCheck b K Kc = .ok false ∧
    safetyCheck b K = .ok false ∧
    safetyCheck br K = .error := by
  have henable := enableSafetyCheck_eq hK b (hw _)
  refine ⟨?_, ?_, ?_, ?_⟩
  · unfold enableThenCheck
    rw [henable]
    dsimp only
    rw [safetyCheck_eq hK]
    simp [Bucket.read, hr, findObj_setObj_self, writtenObj]
  · unfold enableThenCheck
    rw [henable]
    dsimp only
    rw [safetyCheck_eq hKc]
    by_cases hname : safetyEncName Kc = safetyEncName K
    · have hcont : expectedMarkerContent Kc ≠ expectedMarkerContent K :=
        fun hc => hdist ⟨hname, hc⟩
      simp only [Bucket.read, hr, hname, findObj_setObj_self, writtenObj]
      simp [hcont]
    · simp only [Bucket.read, hr, hbobjs]
      rw [findObj_setObj_ne _ _ hname]
      simp [findObj]
  · rw [safetyCheck_eq hK]
    simp [Bucket.read, hr, hbobjs, findObj]
  · rw [safetyCheck_eq hK]
    simp [Bucket.read, hbrr]

theorem claim_C7_safety_witness :
    (keyLenOk wKey ∧ keyLenOk wKey2 ∧
      ¬ (safetyEncName wKey2 = safetyEncName wKey ∧
        expectedMarkerContent wKey2 = expectedMarkerContent wKey) ∧
      c7br.readFail (safetyEncName wKey) = true) ∧
    (enableThenCheck (mkBucket [] false) wKey wKey = .ok true ∧
     enableThenCheck (mkBucket [] false) wKey wKey2 = .ok false ∧
     safetyCheck (mkBucket [] false) wKey = .ok false ∧
     safetyCheck c7br wKey = .error) :=
  ⟨⟨by decide, by decide, by decide, by decide⟩,
    claim_C7_safety wKey wKey2 (mkBucket [] false) c7br (by decide) (by decide)
      rfl (fun _ => rfl) (fun _ => rfl) (by decide) (by decide)⟩

/-- C8 counterexample: with a concrete 32-byte key, the marker object the
code stores holds the encryption of the *encrypted* marker name, which
differs from the encryption of the plaintext marker name that the claim
asserts. -/
theorem claim_C8_counterexample :
    enableResultObjs (mkBucket [] false) wKey
      = some [(safetyEncName wKey, ⟨expectedMarkerContent wKey, []⟩)] ∧
    expectedMarkerContent wKey ≠ specClaimedMarkerContent wKey := by
  constructor
  · rfl
  · decide

/-- C8 amended: the marker's plaintext-space key is the label followed by
`MD5(encryptionKey)`; it is stored under the key-space transform of that
name; and its stored content is the ciphertext, under the same key, of
the *encrypted* marker name (the base64url-encoded encrypted key string),
not of the plaintext name. -/
theorem claim_C8_amended (K : Bytes) (b : Bucket) (hK : keyLenOk K)
    (hw : ∀ k, b.writeFail k = false) :
    safetyName K = .ok (safetyLabel ++ md5Sum K, safetyEncName K) ∧
    makeKey (safetyLabel ++ md5Sum K) K [] = .ok (safetyEncName K) ∧
    encrypt (safetyEncName K) K = .ok (expectedMarkerContent K) ∧
    enableSafetyCheck b K = .ok { b with
      objs := setObj b.objs (safetyEncName K) (writtenObj b (expectedMarkerContent K)) } :=
  ⟨safetyName_eq hK, makeKey_safetyEncName hK, encrypt_safetyEncName hK,
    enableSafetyCheck_eq hK b (hw _)⟩

theorem claim_C8_amended_witness :
    keyLenOk wKey2 ∧
    (safetyName wKey2 = .ok (safetyLabel ++ md5Sum wKey2, safetyEncName wKey2) ∧
     makeKey (safetyLabel ++ md5Sum wKey2) wKey2 [] = .ok (safetyEncName wKey2) ∧
     encrypt (safetyEncName wKey2) wKey2 = .ok (expectedMarkerContent wKey2) ∧
     enableSafetyCheck (mkBucket [] false) wKey2 = .ok { mkBucket [] false with
       objs := setObj (mkBucket [] false).objs (safetyEncName wKey2)
         (writtenObj (mkBucket [] false) (expectedMarkerContent wKey2)) }) :=
  ⟨by decide, claim_C8_amended wKey2 (mkBucket [] false) (by decide) (fun _ => rfl)⟩

/-! ## Claims C1, C5, C6 -/

/-- C1: the run's returned count equals exactly the number of `copied`
outcomes — objects discarded by the skip ordinal or by the hash match
are never counted — and mirroring distinct fresh objects into an empty
destination copies all of them with no errors. -/
theorem claim_C1_copied_count (objs : List (Bytes × ObjData))
    (hnodup : (objs.map Prod.fst).Nodup) :
    (∀ (s d : Bucket) (tmp : Option Bucket) (enc dec : Bytes) (skipN : Nat)
        (entries : List ListEntry) (st' : MState),
        mirror s d tmp enc dec skipN entries = .ok st' →
        st'.addedN = copiedCount st'.acts) ∧
    (∃ st', mirror (mkBucket objs false) (mkBucket [] false) none [] [] 0
          (mkBucket objs false).listing = .ok st'
        ∧ st'.addedN = objs.length ∧ st'.errs = []) := by
  constructor
  · intro s d tmp enc dec skipN entries st' h
    exact (mirror_inv h).1
  · have haux := mirror_fresh_aux objs (mkBucket objs false)
      (initState none (mkBucket [] false)) rfl rfl (fun _ => rfl) (fun _ => rfl)
      (fun _ => rfl) (fun _ => rfl)
      (fun p hp => findObj_of_mem_nodup hnodup hp)
      hnodup (fun p _ => rfl)
    obtain ⟨st', hrun, hadd, herrs⟩ := haux
    exact ⟨st', hrun, by simpa [initState] using hadd, by simpa [initState] using herrs⟩

theorem claim_C1_copied_count_witness :
    (wObjs.map Prod.fst).Nodup ∧
    ((∀ (s d : Bucket) (tmp : Option Bucket) (enc dec : Bytes) (skipN : Nat)
        (entries : List ListEntry) (st' : MState),
        mirror s d tmp enc dec skipN entries = .ok st' →
        st'.addedN = copiedCount st'.acts) ∧
     (∃ st', mirror (mkBucket wObjs false) (mkBucket [] false) none [] [] 0
          (mkBucket wObjs false).listing = .ok st'
        ∧ st'.addedN = wObjs.length ∧ st'.errs = [])) :=
  ⟨by decide, claim_C1_copied_count wObjs (by decide)⟩

/-- C5 counterexample: `mirror` invoked with an encryption key but no
staging store copies the object to the destination under the *unchanged*
source key (the only `copyObj` call that runs gets empty key arguments),
whereas the claim demands `base64url(encrypt(sourceKey))` regardless of
whether a staging store is configured. -/
theorem claim_C5_counterexample :
    runSummary (mirror (mkBucket [([65], ⟨[1, 2, 3], []⟩)] false) (mkBucket [] false)
        none wKey [] 0 (mkBucket [([65], ⟨[1, 2, 3], []⟩)] false).listing)
      = some (1, [], [.copied [65] [65]], [([65], ⟨[1, 2, 3], []⟩)]) ∧
    makeKey [65] wKey [] ≠ .ok [65] := by
  constructor
  · rfl
  · decide

/-- C5 amended: for every object `mirror` copies, the destination key is
`makeKey` of the listed key — `base64url(encrypt(key))` when encrypting,
`decrypt(base64url-decode(key))` when decrypting, the key unchanged with
no keys — whenever a staging store is configured (the CLI always
configures one when encryption or decryption is requested); with no
staging store the destination key is the source key unchanged. -/
theorem claim_C5_amended (s d : Bucket) (tmp : Option Bucket) (enc dec : Bytes)
    (skipN : Nat) (entries : List ListEntry) (n : Nat) (es : List Ev)
    (as : List Act) (ds : List (Bytes × ObjData))
    (h : runSummary (mirror s d tmp enc dec skipN entries) = some (n, es, as, ds)) :
    ∀ k dk, Act.copied k dk ∈ as →
      (tmp.isSome = true → makeKey k enc dec = .ok dk) ∧
      (tmp.isSome = false → dk = k) := by
  cases hm : mirror s d tmp enc dec skipN entries with
  | ok st' =>
    rw [hm] at h
    unfold runSummary at h
    injection h with h
    injection h with h1 h
    injection h with h2 h
    injection h with h3 h4
    have hks := @mirrorLoop_keySpec s enc dec skipN tmp.isSome _ _ _ hm ⟨rfl, by simp [initState]⟩
    intro k dk hmem
    exact hks.2 k dk (h3 ▸ hmem)
  | error =>
    rw [hm] at h
    cases h
  | panic =>
    rw [hm] at h
    cases h

theorem claim_C5_amended_witness :
    runSummary (mirror (mkBucket [([65], ⟨[1, 2], []⟩)] false) (mkBucket [] false)
        (some (mkBucket [] true)) wKey [] 0
        (mkBucket [([65], ⟨[1, 2], []⟩)] false).listing)
      = some (1, [], [.copied [65] c5dk], [(c5dk, ⟨c5ct, []⟩)]) ∧
    makeKey [65] wKey [] = .ok c5dk :=
  ⟨rfl,
    (claim_C5_amended (mkBucket [([65], ⟨[1, 2], []⟩)] false) (mkBucket [] false)
      (some (mkBucket [] true)) wKey [] 0
      (mkBucket [([65], ⟨[1, 2], []⟩)] false).listing
      1 [] [.copied [65] c5dk] [(c5dk, ⟨c5ct, []⟩)] rfl [65] c5dk
      (by simp)).1 rfl⟩

/-- C6 counterexample: a run whose listing yields one object and then an
iteration error, with a staging store.  The stale `cleanloop` closure
runs a second time on the EOF pass and its deletion fails, so the
reported error count (2) exceeds the number of events of the five kinds
the claim enumerates (1), and the iteration error is forwarded with no
object key attached. -/
theorem claim_C6_counterexample :
    runSummary (mirror (mkBucket [([65], ⟨[1, 2], []⟩)] false) (mkBucket [] false)
        (some (mkBucket [] true)) [] [] 0 [.obj [65], .iterErr])
      = some (1, [.iterEv, .cleanupEv [65]],
          [.copied [65] [65], .iterFailed, .cleanupFailed [65]],
          [([65], ⟨[1, 2], []⟩)]) ∧
    ¬ ((collectorCount [Ev.iterEv, Ev.cleanupEv [65]]
        = List.countP (fun a => a.isListedFailure)
            [Act.copied [65] [65], Act.iterFailed, Act.cleanupFailed [65]]) ∧
      (∀ e ∈ [Ev.iterEv, Ev.cleanupEv [65]], (Ev.key e).isSome = true)) := by
  constructor
  · rfl
  · decide

/-- C6 amended: every failure inside the mirror loop — iteration,
attribute-fetch, staging-copy, staged-cleanup-deletion, existence-check,
destination-copy — is non-fatal: it is forwarded to the error sink
(wrapped with the offending object's key, except iteration errors, which
carry no key), the loop proceeds, and the run's reported error count is
exactly the number of all such forwarded failure events. -/
theorem claim_C6_amended (s d : Bucket) (tmp : Option Bucket) (enc dec : Bytes)
    (skipN : Nat) (entries : List ListEntry) (n : Nat) (es : List Ev)
    (as : List Act) (ds : List (Bytes × ObjData))
    (h : runSummary (mirror s d tmp enc dec skipN entries) = some (n, es, as, ds)) :
    es = as.filterMap Act.toEv ∧ collectorCount es = failureCount as := by
  cases hm : mirror s d tmp enc dec skipN entries with
  | ok st' =>
    rw [hm] at h
    unfold runSummary at h
    injection h with h
    injection h with h1 h
    injection h with h2 h
    injection h with h3 h4
    have hinv := (mirror_inv hm).2
    subst h2
    subst h3
    refine ⟨hinv, ?_⟩
    rw [collectorCount, hinv, length_filterMap_countP]
    rfl
  | error =>
    rw [hm] at h
    cases h
  | panic =>
    rw [hm] at h
    cases h

theorem claim_C6_amended_witness :
    runSummary (mirror c6wSrc (mkBucket [] false) none [] [] 0 c6wSrc.listing)
      = some (1, [.attrEv [65]], [.attrFailed [65], .copied [66] [66]],
          [([66], ⟨[2], []⟩)]) ∧
    ([Ev.attrEv [65]]
        = List.filterMap Act.toEv [Act.attrFailed [65], Act.copied [66] [66]] ∧
      collectorCount [Ev.attrEv [65]]
        = failureCount [Act.attrFailed [65], Act.copied [66] [66]]) :=
  ⟨rfl,
    claim_C6_amended c6wSrc (mkBucket [] false) none [] [] 0 c6wSrc.listing
      1 [.attrEv [65]] [.attrFailed [65], .copied [66] [66]]
      [([66], ⟨[2], []⟩)] rfl⟩

/-! ## Claims C2, C10 -/

theorem keyExists_false {b : Bucket} {k : Bytes} (h : b.keyExists k = .ok false) :
    findObj b.objs k = none := by
  unfold Bucket.keyExists at h
  split at h
  · cases h
  · injection h with h
    cases hf : findObj b.objs k
    · rfl
    · rw [hf] at h
      simp at h

/-- C2: in the per-object compare-and-copy step, the destination is
written only if the key is absent or the recorded hashes differ
byte-for-byte (two lists are equal only at equal length, so a length
mismatch is unequal); when the hashes are equal the object is marked
skipped and the destination is left untouched. -/
theorem claim_C2_overwrite_guard (csbkt : Bucket) (objKey origKey : Bytes)
    (sattrs : ObjData) (st st' : MState)
    (h : comparePhase csbkt objKey origKey (some sattrs) st = .ok st') :
    (∀ dattrs : ObjData, st.dest.keyExists objKey = .ok true →
      st.dest.attributes objKey = .ok dattrs → sattrs.md5 = dattrs.md5 →
      st'.dest.objs = st.dest.objs ∧ st'.acts = st.acts ++ [.skippedHash origKey]) ∧
    (st'.dest.objs ≠ st.dest.objs →
      findObj st.dest.objs objKey = none ∨
        ∃ dattrs, st.dest.attributes objKey = .ok dattrs ∧ sattrs.md5 ≠ dattrs.md5) := by
  unfold comparePhase at h
  repeat' split at h
  all_goals try cases h
  all_goals constructor
  all_goals try (intro dattrs hex hattr hmd5)
  all_goals try (intro hne)
  all_goals simp_all [MState.note, MState.sendErr]
  all_goals try (exact Or.inl (keyExists_false (by simp_all)))

theorem claim_C2_overwrite_guard_witness :
    (comparePhase (mkBucket [] false) [65] [65] (some ⟨[7], [1, 1]⟩) c2st
        = .ok (c2st.note (.skippedHash [65]))) ∧
    ((c2st.note (.skippedHash [65])).dest.objs = c2st.dest.objs ∧
      (c2st.note (.skippedHash [65])).acts = c2st.acts ++ [.skippedHash [65]]) :=
  ⟨rfl,
    (claim_C2_overwrite_guard (mkBucket [] false) [65] [65] ⟨[7], [1, 1]⟩ c2st
        (c2st.note (.skippedHash [65])) rfl).1
      ⟨[9, 9], [1, 1]⟩ rfl rfl rfl⟩

/-- C10 (implicit behavior): when both the source-side and the
destination attributes report an absent (empty) content hash, the
comparison treats them as equal and the object is marked skipped, the
destination untouched — even when the stored contents differ. -/
theorem claim_C10_absent_hashes_skip (csbkt : Bucket) (objKey origKey : Bytes)
    (sattrs dattrs : ObjData) (st : MState)
    (hsm : sattrs.md5 = []) (hdm : dattrs.md5 = [])
    (hdiff : sattrs.content ≠ dattrs.content)
    (hex : st.dest.keyExists objKey = .ok true)
    (hattr : st.dest.attributes objKey = .ok dattrs) :
    comparePhase csbkt objKey origKey (some sattrs) st
      = .ok (st.note (.skippedHash origKey)) ∧
    (st.note (.skippedHash origKey)).dest.objs = st.dest.objs := by
  constructor
  · simp only [comparePhase, hex, hattr]
    simp [hsm, hdm]
  · rfl

theorem claim_C10_absent_hashes_skip_witness :
    (([4] : Bytes) ≠ [5, 5] ∧
      c10st.dest.keyExists [66] = .ok true) ∧
    (comparePhase (mkBucket [] false) [66] [66] (some ⟨[4], []⟩) c10st
        = .ok (c10st.note (.skippedHash [66])) ∧
      (c10st.note (.skippedHash [66])).dest.objs = c10st.dest.objs) :=
  ⟨⟨by decide, rfl⟩,
    claim_C10_absent_hashes_skip (mkBucket [] false) [66] [66] ⟨[4], []⟩
      ⟨[5, 5], []⟩ c10st rfl rfl (by decide) rfl rfl⟩

end Blobcopy
